import Mathlib

/-!
Verification of the core join/aggregation engine of the CPTAC dataset library
(`cptac/dataset.py`).  Python dataframes are shallowly embedded as explicit
lists; `NaN` is `Option.none` (or `PVal.na` for generic cells); a Python
function that can raise `ValueError` or `IndexError` returns `Option`; a
function that raises one of the library's typed exceptions returns `Except
CptacErr`.
-/

/-- The typed exceptions raised by the library code that the embedded
functions can produce.  `invalidParameter` is `InvalidParameterError`,
`dataframeNotIncluded` is `DataframeNotIncludedError`; each carries the
formatted message from the raise site. -/
inductive CptacErr where
  | invalidParameter (msg : String)
  | dataframeNotIncluded (msg : String)
deriving DecidableEq, Repr

/-! ### `DataSet._parse_mutation_location`

The Python loop scans the characters of the location string, accumulating
the first maximal run of decimal digits; hitting a non-digit after digits
were found returns `int(num)` early; reaching the end returns `int(num)`,
which raises `ValueError` when no digit was ever found (`num == ""`).
A null (`NaN`) location is returned unchanged.

Embedding: the accumulated digit string and its final `int(..)` are fused
into a `Nat` accumulator (`int` of the digit string equals the decimal
value accumulated digit by digit).  Result type `Option (Option Nat)`:
`none` = `ValueError` raised, `some none` = the null location returned
unchanged, `some (some n)` = the integer `n` returned. -/
def parseLoop : List Char → Nat → Bool → Option Nat
  | [], num, found => if found then some num else none
  | c :: rest, num, found =>
    if c.isDigit then parseLoop rest (num * 10 + (c.toNat - 48)) true
    else if found then some num
    else parseLoop rest num found

def parseMutationLocation : Option String → Option (Option Nat)
  | none => some none
  | some location =>
    match parseLoop location.data 0 false with
    | some n => some (some n)
    | none => none

/-- Spec-side definition (from the spec's words, for the refinement
comparison): "scan the string left-to-right; the value is the integer
formed from the first maximal run of decimal digits". -/
def firstDigitRun (s : String) : Nat :=
  ((s.data.dropWhile (fun c => !c.isDigit)).takeWhile (fun c => c.isDigit)).foldl
    (fun a c => a * 10 + (c.toNat - 48)) 0

/-- Spec-side: whether the string contains any decimal digit. -/
def hasDigit (s : String) : Bool :=
  s.data.any (fun c => c.isDigit)

/-! ### `DataSet._filter_multiple_mutations`

The tie-break algorithm choosing one (mutation, location) pair out of the
parallel lists for one sample/gene.  Mutations are plain strings; locations
are `Option String` (`none` = `NaN`).  A list-index error or a `ValueError`
from `_parse_mutation_location` makes the embedded function return `none`. -/

/-- The per-cancer-type truncation classes (`dataset.py` lines 816-824). -/
def truncationsFor (cancerType : String) : List String :=
  if cancerType = "colon" then
    ["frameshift deletion", "frameshift insertion", "frameshift substitution", "stopgain", "stoploss"]
  else if cancerType = "hnscc" then
    ["stopgain", "stoploss"]
  else
    ["Frame_Shift_Del", "Frame_Shift_Ins", "Nonsense_Mutation", "Nonstop_Mutation", "Splice_Site"]

/-- The per-cancer-type missense classes (`dataset.py` lines 816-824). -/
def missensesFor (cancerType : String) : List String :=
  if cancerType = "colon" then
    ["nonframeshift deletion", "nonframeshift insertion", "nonframeshift substitution", "nonsynonymous SNV"]
  else if cancerType = "hnscc" then
    ["nonframeshift insertion", "nonframeshift deletion"]
  else
    ["In_Frame_Del", "In_Frame_Ins", "Missense_Mutation"]

/-- The noncoding classes, consulted only for the "gbm" cancer type
(`dataset.py` lines 826-827). -/
def noncodingsList : List String :=
  ["Intron", "RNA", "3'Flank", "Splice_Region", "5'UTR", "5'Flank", "3'UTR"]

/-- `[index for index, value in enumerate(lst) if value == v]`. -/
def indicesOf (l : List String) (v : String) : List Nat :=
  (List.range l.length).filter (fun i => l.get? i = some v)

/-- `[index for index, value in enumerate(lst) if value == some v]`
(the location variant: the filter token is compared against the location
strings). -/
def indicesOfLoc (l : List (Option String)) (v : String) : List Nat :=
  (List.range l.length).filter (fun i => l.get? i = some (some v))

/-- The filter scan: the first filter token found in the mutations list (or
failing that, the locations list) contributes its matching indices
(`dataset.py` lines 830-837). -/
def filterScan (mutationsFilter : List String) (muts : List String)
    (locs : List (Option String)) : List Nat :=
  match mutationsFilter with
  | [] => []
  | v :: rest =>
    if muts.contains v then indicesOf muts v
    else if locs.contains (some v) then indicesOfLoc locs v
    else filterScan rest muts locs

/-- One default-hierarchy pass: for each mutation in the list (in order,
with multiplicity) that belongs to `classes`, append all indices holding
that value (`dataset.py` lines 840-852). -/
def classPass (classes : List String) (muts : List String) : List Nat :=
  muts.foldl (fun acc m => if classes.contains m then acc ++ indicesOf muts m else acc) []

/-- The full candidate-selection cascade (`dataset.py` lines 829-858):
filter tokens, then truncations, then missenses, then (gbm only)
noncodings, then every index. -/
def chosenIndices (cancerType : String) (mutationsFilter : List String)
    (muts : List String) (locs : List (Option String)) : List Nat :=
  let step1 := filterScan mutationsFilter muts locs
  let step2 := if step1 = [] then classPass (truncationsFor cancerType) muts else step1
  let step3 := if step2 = [] then classPass (missensesFor cancerType) muts else step2
  let step4 :=
    if cancerType = "gbm" ∧ step3 = [] then classPass noncodingsList muts else step3
  if step4 = [] then List.range muts.length else step4

/-- One iteration of the `for index in chosen_indices` selection loop
(`dataset.py` lines 863-878), threaded through `Option` so that an index
error or a `ValueError` from location parsing aborts. -/
def pickStep (muts : List String) (locs : List (Option String))
    (st : Option (String × Option String)) (i : Nat) : Option (String × Option String) :=
  match st with
  | none => none
  | some (sm, sl) =>
    match muts.get? i, locs.get? i with
    | some m, some l =>
      match l with
      | none => some (sm, sl)
      | some lv =>
        match sl with
        | none => some (m, some lv)
        | some slv =>
          match parseMutationLocation (some lv), parseMutationLocation (some slv) with
          | some (some nl), some (some ns) =>
            if nl < ns then some (m, some lv) else some (sm, sl)
          | _, _ => none
    | _, _ => none

/-- The smallest-location selection over the winning candidate set
(`dataset.py` lines 860-879).  The initial "soonest" pair is the entry at
`chosen[0]`; the loop then walks all of `chosen`. -/
def pickSoonest (muts : List String) (locs : List (Option String))
    (chosen : List Nat) : Option (String × Option String) :=
  match chosen with
  | [] => none
  | c0 :: _ =>
    match muts.get? c0, locs.get? c0 with
    | some m0, some l0 => chosen.foldl (pickStep muts locs) (some (m0, l0))
    | _, _ => none

/-- `DataSet._filter_multiple_mutations` (`dataset.py` lines 803-879). -/
def filterMultipleMutations (cancerType : String) (mutationsFilter : List String)
    (muts : List String) (locs : List (Option String)) : Option (String × Option String) :=
  pickSoonest muts locs (chosenIndices cancerType mutationsFilter muts locs)

/-! ### `DataSet._get_genes_mutations`

One row of the `somatic_mutation` table is a `MutRecord`.  The embedded
function validates the filter values, deduplicates the requested genes
(keeping first occurrences, as `pd.Series.drop_duplicates` does), and per
gene slices the table, raising `InvalidParameterError` when a gene has no
record anywhere.  Per sample it builds the parallel mutation/location
lists and either keeps them (no filter) or collapses them through
`_filter_multiple_mutations`.  Result type: the outer `Option` is `none`
when an untyped Python exception (`ValueError` from location parsing)
escapes; the `Except` carries the library's typed errors.  The payload is
the per-gene association list of per-sample cells (the content of the
returned dataframe); the per-gene "filter value missing for this gene"
warning is advisory only and is not modelled. -/

structure MutRecord where
  sample : String
  gene : String
  mutation : String
  location : Option String
deriving DecidableEq, Repr

/-- `pd.Index(..).drop_duplicates()` / `pd.Series(..).drop_duplicates()`:
keep the first occurrence of each value, in order (`seen` accumulates the
values already kept). -/
def dedupFirstAux : List String → List String → List String
  | [], _ => []
  | x :: xs, seen =>
    if x ∈ seen then dedupFirstAux xs seen
    else x :: dedupFirstAux xs (x :: seen)

def dedupFirst (l : List String) : List String :=
  dedupFirstAux l []

def recordsForGene (somatic : List MutRecord) (g : String) : List MutRecord :=
  somatic.filter (fun r => r.gene = g)

def recordsForSample (recs : List MutRecord) (s : String) : List MutRecord :=
  recs.filter (fun r => r.sample = s)

/-- The distinct sample ids of a gene slice
(`gene_mutations.index.copy().drop_duplicates()`). -/
def samplesOf (recs : List MutRecord) : List String :=
  dedupFirst (recs.map (fun r => r.sample))

/-- One cell triple of the aggregated mutation table for one sample:
either a single prioritized (mutation, location) pair (filter supplied) or
the full parallel lists, together with the `Mutation_Status` value. -/
inductive MutCell where
  | one (mutation : String) (location : Option String) (status : String)
  | many (mutations : List String) (locations : List (Option String)) (status : String)
deriving DecidableEq, Repr

/-- The per-sample body of the aggregation loop
(`dataset.py` lines 679-711). -/
def aggregateSample (cancerType : String) (filter? : Option (List String))
    (recs : List MutRecord) (s : String) : Option MutCell :=
  let srecs := recordsForSample recs s
  let mlist := srecs.map (fun r => r.mutation)
  let llist := srecs.map (fun r => r.location)
  let status := if mlist.length > 1 then "Multiple_mutation" else "Single_mutation"
  match filter? with
  | some f =>
    match filterMultipleMutations cancerType f mlist llist with
    | some (m, l) => some (.one m l status)
    | none => none
  | none => some (.many mlist llist status)

/-- Option-valued map over a list, aborting at the first failure (the
sample loop aborts when an exception escapes one iteration). -/
def listMapOpt {α β : Type} (f : α → Option β) : List α → Option (List β)
  | [] => some []
  | a :: l =>
    match f a with
    | none => none
    | some b =>
      match listMapOpt f l with
      | none => none
      | some bs => some (b :: bs)

/-- The per-gene aggregation (`dataset.py` lines 670-711): one cell per
distinct sample of the gene slice. -/
def aggregateGene (cancerType : String) (filter? : Option (List String))
    (recs : List MutRecord) : Option (List (String × MutCell)) :=
  listMapOpt (fun s => (aggregateSample cancerType filter? recs s).map (fun c => (s, c)))
    (samplesOf recs)

def filterBadMsg (v : String) : String :=
  "Filter value " ++ v ++ " does not exist in the mutations dataframe for this dataset. Check for typos and existence. Merge aborted."

def geneNotFoundMsg (g : String) : String :=
  g ++ " gene not found in somatic_mutation data."

/-- The whole-table filter-value validation (`dataset.py` lines 649-653):
the first filter value present neither among the mutation values nor among
the location values aborts the call. -/
def checkFilterVals (somatic : List MutRecord) : List String → Except CptacErr Unit
  | [] => .ok ()
  | v :: rest =>
    if somatic.any (fun r => r.mutation = v) || somatic.any (fun r => r.location = some v) then
      checkFilterVals somatic rest
    else
      .error (.invalidParameter (filterBadMsg v))

/-- Decidable statement that every filter value passes the validation. -/
def filterValsOk (somatic : List MutRecord) : Option (List String) → Bool
  | none => true
  | some f =>
    f.all (fun v => somatic.any (fun r => r.mutation = v) || somatic.any (fun r => r.location = some v))

/-- The gene loop (`dataset.py` lines 658-715): the first gene with an
empty slice raises `InvalidParameterError`; otherwise the gene's
aggregated cells are accumulated. -/
def processGenes (cancerType : String) (somatic : List MutRecord)
    (filter? : Option (List String)) :
    List String → Option (Except CptacErr (List (String × List (String × MutCell))))
  | [] => some (.ok [])
  | g :: rest =>
    let grecs := recordsForGene somatic g
    if grecs = [] then some (.error (.invalidParameter (geneNotFoundMsg g)))
    else
      match aggregateGene cancerType filter? grecs with
      | none => none
      | some cells =>
        match processGenes cancerType somatic filter? rest with
        | none => none
        | some (.error e) => some (.error e)
        | some (.ok acc) => some (.ok ((g, cells) :: acc))

/-- `DataSet._get_genes_mutations` (`dataset.py` lines 622-717). -/
def getGenesMutations (cancerType : String) (somatic : List MutRecord)
    (genes : List String) (filter? : Option (List String)) :
    Option (Except CptacErr (List (String × List (String × MutCell)))) :=
  match filter? with
  | some f =>
    match checkFilterVals somatic f with
    | .error e => some (.error e)
    | .ok _ => processGenes cancerType somatic filter? (dedupFirst genes)
  | none => processGenes cancerType somatic none (dedupFirst genes)

/-- A location value that `_parse_mutation_location` handles without
raising: null, or holding at least one digit. -/
def locSafe : Option String → Bool
  | none => true
  | some s => hasDigit s

/-! ### `DataSet._add_levels` (Index Harmonizer)

A pandas column `Index`/`MultiIndex` is embedded as its list of levels:
each level is a name (possibly `None`) paired with its value array, all of
length `size`.  A flat index is the one-level case. -/

structure ColIndex where
  size : Nat
  levels : List (Option String × List (Option String))
deriving DecidableEq, Repr

/-- `index.names`. -/
def ColIndex.names (x : ColIndex) : List (Option String) :=
  x.levels.map (fun p => p.1)

/-- `index.get_level_values(name)`: the value array of the first level
named `name`, when there is one. -/
def lookupLevel (x : ColIndex) (n : String) : Option (List (Option String)) :=
  (x.levels.find? (fun p => p.1 = some n)).map (fun p => p.2)

/-- `source_set <= to_set` on the name sets. -/
def namesSubset (src dst : ColIndex) : Bool :=
  src.names.all (fun n => decide (n ∈ dst.names))

/-- The canonical level names, in order (`dataset.py` line 514). -/
def allLevelNames : List String :=
  ["Name", "Site", "Peptide", "Database_ID"]

/-- One entry of the `levels` dict built by `_add_levels` for the
canonical name `n`: the "to" index's own values when it has the level, an
all-`NaN` array when only the source has it, nothing otherwise
(`dataset.py` lines 517-521). -/
def mkLevel (dst src : ColIndex) (n : String) :
    Option (Option String × List (Option String)) :=
  match lookupLevel dst n with
  | some vs => some (some n, vs)
  | none =>
    if (some n) ∈ src.names then some (some n, List.replicate dst.size none) else none

def rebuildLevels (dst src : ColIndex) : List (Option String × List (Option String)) :=
  allLevelNames.filterMap (mkLevel dst src)

/-- `DataSet._add_levels` (`dataset.py` lines 499-524).  Returns `to`
unchanged when its name set already contains the source's; otherwise
rebuilds a MultiIndex holding, in canonical order, the levels of `to`
plus an all-missing level for each canonical level only `source` has.
`none` models `pd.MultiIndex.from_arrays` raising on an empty levels
dict (neither index has any canonical level). -/
def addLevels (dst src : ColIndex) : Option ColIndex :=
  if namesSubset src dst then some dst
  else if rebuildLevels dst src = [] then none
  else some ⟨dst.size, rebuildLevels dst src⟩

/-- The two-sided harmonization as performed by `join_omics_to_omics`
(`dataset.py` lines 302-304): when the name lists differ, the first
index is upgraded against the second, then the second against the
already-upgraded first. -/
def harmonizePair (a b : ColIndex) : Option (ColIndex × ColIndex) :=
  if a.names = b.names then some (a, b)
  else
    match addLevels a b with
    | none => none
    | some a1 =>
      match addLevels b a1 with
      | none => none
      | some b1 => some (a1, b1)

/-! ### Column Selector over flat tables

A dataframe with a flat column index: a row index plus labelled columns,
each column an array of cells parallel to the rows (`none` = `NaN`).
`df[label]` is first-match lookup (the data model guarantees unique
labels). -/

structure FlatTable where
  rows : List String
  cols : List (String × List (Option String))
deriving DecidableEq, Repr

def FlatTable.colLabels (t : FlatTable) : List String :=
  t.cols.map (fun c => c.1)

def lookupCol (t : FlatTable) (g : String) : Option (List (Option String)) :=
  (t.cols.find? (fun c => c.1 = g)).map (fun c => c.2)

/-- `pd.Index.difference`: the values of the first list not in the second,
without duplicates, sorted ascending. -/
def indexDifference (xs ys : List String) : List String :=
  List.insertionSort (fun x y => x ≤ y)
    (dedupFirst (xs.filter (fun x => decide (¬ x ∈ ys))))

/-- `DataSet._get_omics_cols`, flat-column case with a gene list supplied
(`dataset.py` lines 543-584).  `contained` / `not_contained` come from
`Index.intersection` / `Index.difference`; the table restricted to
`contained` is then reindexed to the full (non-deduplicated) requested
index, which inserts an all-`NaN` column for each missing label; the
table name is suffixed to every label.  The second component is the list
of issued warnings, each carrying the missing labels it names
(at most one is issued, when `not_contained` is non-empty). -/
def getOmicsColsFlat (omicsName : String) (df : FlatTable) (genes : List String) :
    FlatTable × List (List String) :=
  let contained := dedupFirst (genes.filter (fun g => decide (g ∈ df.colLabels)))
  let notContained := indexDifference genes contained
  let selected : FlatTable :=
    ⟨df.rows, contained.filterMap (fun g => (lookupCol df g).map (fun v => (g, v)))⟩
  let reindexed : FlatTable :=
    ⟨df.rows, genes.map (fun g =>
      (g, match lookupCol selected g with
          | some v => v
          | none => List.replicate df.rows.length none))⟩
  let suffixed : FlatTable :=
    ⟨reindexed.rows, reindexed.cols.map (fun c => (c.1 ++ "_" ++ omicsName, c.2))⟩
  (suffixed, if notContained = [] then [] else [notContained])

def metadataMissingMsg (dfName : String) (missing : List String) : String :=
  "The following columns were not found in the " ++ dfName ++ " dataframe: " ++
    String.intercalate ", " missing

/-- `DataSet._get_metadata_cols` (`dataset.py` lines 586-620).  `None`
returns the whole table; otherwise the requested columns are
deduplicated, any request not present in the table raises
`InvalidParameterError` naming all the missing columns, and only when
all are present is the selection returned.  The function has no
`warnings.warn` call, so its warning list (second component) is always
empty. -/
def getMetadataCols (dfName : String) (df : FlatTable) (cols? : Option (List String)) :
    Except CptacErr FlatTable × List (List String) :=
  match cols? with
  | none => (.ok df, [])
  | some cols =>
    let colsD := dedupFirst cols
    let notContained := indexDifference colsD df.colLabels
    if notContained = [] then
      (.ok ⟨df.rows, colsD.filterMap (fun c => (lookupCol df c).map (fun v => (c, v)))⟩, [])
    else
      (.error (.invalidParameter (metadataMissingMsg dfName notContained)), [])

/-! ### The Join Engine, Sample_Status column, and Wildtype Imputer

A joined dataframe is embedded as `MTable`: a row index, a column
nesting depth, and labelled columns.  A column label is the list of its
level values (a flat index is the one-level case); each column carries
its pandas dtype and its cell array, parallel to the rows. -/

/-- A generic dataframe cell: `NaN`, a string, an opaque float (coded as
`Int`), or a Python list of cells. -/
inductive PVal where
  | na
  | s (v : String)
  | f (v : Int)
  | list (vs : List PVal)

def PVal.isNa : PVal → Bool
  | .na => true
  | _ => false

inductive Dtype where
  | object
  | float64
deriving DecidableEq, Repr

structure MCol where
  label : List (Option String)
  dtype : Dtype
  cells : List PVal

structure MTable where
  nlevels : Nat
  rows : List String
  cols : List MCol

/-- `pandas.Index.union` as it behaves on this library's string sample
indexes: the distinct values of both sides, sorted ascending (the default
`sort=None` sorts the union whenever the values compare, via a monotonic
merge or `safe_sort`). -/
def pandasUnion (a b : List String) : List String :=
  List.insertionSort (fun x y => x ≤ y) (dedupFirst (a ++ b))

def rowPos (rows : List String) (r : String) : Option Nat :=
  rows.findIdx? (fun x => x = r)

/-- The cell a column contributes at row `r` after reindexing: its
original value when `r` was present, `NaN` when the join inserted the
row. -/
def cellAt (rows : List String) (cells : List PVal) (r : String) : PVal :=
  match rowPos rows r with
  | some i => cells.getD i .na
  | none => .na

def reindexCol (oldRows newRows : List String) (c : MCol) : MCol :=
  ⟨c.label, c.dtype, newRows.map (cellAt oldRows c.cells)⟩

/-- `df1.join(df2, how="outer")`: rows are the union of both indexes (see
`pandasUnion`), columns are both column sets realigned to the new index
with `NaN` where a row was missing. -/
def outerJoin (t1 t2 : MTable) : MTable :=
  ⟨max t1.nlevels t2.nlevels, pandasUnion t1.rows t2.rows,
    (t1.cols.map (reindexCol t1.rows (pandasUnion t1.rows t2.rows))) ++
      (t2.cols.map (reindexCol t2.rows (pandasUnion t1.rows t2.rows)))⟩

/-- `df.sort_index()`: rows sorted ascending, cells permuted along. -/
def sortIndex (t : MTable) : MTable :=
  ⟨t.nlevels, List.insertionSort (fun x y => x ≤ y) t.rows,
    t.cols.map (reindexCol t.rows (List.insertionSort (fun x y => x ≤ y) t.rows))⟩

/-- The row-index core of `join_omics_to_omics` (`dataset.py` lines
306-312): harmonize column levels (label-only, not modelled here), outer
join, warn, sort the row index ascending. -/
def joinOmicsToOmicsCore (s1 s2 : MTable) : MTable :=
  sortIndex (outerJoin s1 s2)

/-- The row-index core of `join_metadata_to_metadata` (`dataset.py` lines
355-361): outer join with `rsuffix="_from_<df2 name>"` renaming any
right-hand label that also occurs on the left, then sort ascending. -/
def joinMetadataToMetadataCore (df2Name : String) (s1 s2 : MTable) : MTable :=
  sortIndex (outerJoin s1
    ⟨s2.nlevels, s2.rows, s2.cols.map (fun c =>
      if c.label ∈ s1.cols.map (fun d => d.label) then
        ⟨c.label.map (fun lv => lv.map (fun x => x ++ "_from_" ++ df2Name)), c.dtype, c.cells⟩
      else c)⟩)

/-- The row-index core of `join_metadata_to_omics` (`dataset.py` lines
383-389): harmonize (label-only), outer join, sort ascending. -/
def joinMetadataToOmicsCore (s1 s2 : MTable) : MTable :=
  sortIndex (outerJoin s1 s2)

/-- `DataSet._get_sample_status_map` (`dataset.py` lines 433-438): the
clinical table's `Sample_Tumor_Normal` column as a sample-to-status
series, renamed `Sample_Status`.  `none` models the `KeyError` when the
column is absent. -/
def getSampleStatusMap (clinical : FlatTable) : Option (List (String × Option String)) :=
  (lookupCol clinical "Sample_Tumor_Normal").map (fun v => clinical.rows.zip v)

def statusOf (smap : List (String × Option String)) (r : String) : Option String :=
  match smap.find? (fun p => p.1 = r) with
  | some p => p.2
  | none => none

/-- The header given to the status series before the left join
(`dataset.py` lines 739-743): with a multi-level column index,
`Sample_Status` at the first (Name) level padded with `NaN` at the
rest. -/
def statusLabel (nlv : Nat) : List (Option String) :=
  if nlv > 1 then (some "Sample_Status") :: List.replicate (nlv - 1) none
  else [some "Sample_Status"]

/-- `joined.join(sample_status_map, how="left")` (`dataset.py` line 745):
the joined table's rows are kept; each row's status is looked up, with
`NaN` for samples absent from the map. -/
def addStatusCol (joined : MTable) (smap : List (String × Option String)) : MTable :=
  ⟨joined.nlevels, joined.rows,
    joined.cols ++ [⟨statusLabel joined.nlevels, .object,
      joined.rows.map (fun r =>
        match statusOf smap r with
        | some s => PVal.s s
        | none => PVal.na)⟩]⟩

/-- The fill-value selection (`dataset.py` lines 748-760): bare sentinel
strings when a mutations filter was used; `[["..."]]` literals when every
column of the joined table (the status column included) has dtype
object; `[[["..."]]]` literals otherwise.  The triple is (normal fill,
tumor fill, no-mutation fill). -/
def wildtypeFills (filtered : Bool) (joined : MTable) : PVal × PVal × PVal :=
  if filtered then
    (.s "Wildtype_Normal", .s "Wildtype_Tumor", .s "No_mutation")
  else if joined.cols.all (fun c => c.dtype = .object) then
    (.list [.list [.s "Wildtype_Normal"]], .list [.list [.s "Wildtype_Tumor"]],
      .list [.list [.s "No_mutation"]])
  else
    (.list [.list [.list [.s "Wildtype_Normal"]]],
      .list [.list [.list [.s "Wildtype_Tumor"]]],
      .list [.list [.list [.s "No_mutation"]]])

/-- The value a masked `.loc[mask, col] = fill` stores in each selected
cell: per the comment at `dataset.py` line 748, a one-element list fill
is inserted with the outer nesting stripped (each cell receives the
single item), a bare value as is. -/
def locAssignValue : PVal → PVal
  | .list [v] => v
  | v => v

/-- The value of the first (Name) level of a column's label; in this code
path the Name level is always level 0 (canonical level order, and both
join sides carry a Name level). -/
def nameLevel (c : MCol) : Option String :=
  c.label.getD 0 none

/-- `joined.columns.get_level_values("Name").str.match(r'^.*_<suffix>$')`:
the Name level ends with the given suffix (`NaN` names never match). -/
def nameMatches (sfx : String) (c : MCol) : Bool :=
  match nameLevel c with
  | some s => decide (sfx.data.IsSuffix s.data)
  | none => false

def isMutationCol (c : MCol) : Bool := nameMatches "_Mutation" c

def isLocationCol (c : MCol) : Bool := nameMatches "_Location" c

def isMutationStatusCol (c : MCol) : Bool := nameMatches "_Mutation_Status" c

/-- The two `.loc` imputation passes over one `*_Mutation` column
(`dataset.py` lines 779-780): `NaN` cells of samples with Normal (resp.
Tumor) status receive the normal (resp. tumor) fill. -/
def fillMutationCol (smap : List (String × Option String)) (rows : List String)
    (fillN fillT : PVal) (cells : List PVal) : List PVal :=
  (rows.zip cells).map (fun p =>
    if statusOf smap p.1 = some "Normal" ∧ p.2.isNa then locAssignValue fillN
    else if statusOf smap p.1 = some "Tumor" ∧ p.2.isNa then locAssignValue fillT
    else p.2)

/-- The `*_Location` fill (`dataset.py` line 790): `NaN` cells of samples
with a known (non-null) status receive the no-mutation fill. -/
def fillLocationCol (smap : List (String × Option String)) (rows : List String)
    (fillNo : PVal) (cells : List PVal) : List PVal :=
  (rows.zip cells).map (fun p =>
    if p.2.isNa ∧ (statusOf smap p.1).isSome then locAssignValue fillNo else p.2)

/-- The `*_Mutation_Status` fill (`dataset.py` lines 797-799): always the
bare sentinel strings. -/
def fillStatusCol (smap : List (String × Option String)) (rows : List String)
    (cells : List PVal) : List PVal :=
  (rows.zip cells).map (fun p =>
    if statusOf smap p.1 = some "Normal" ∧ p.2.isNa then PVal.s "Wildtype_Normal"
    else if statusOf smap p.1 = some "Tumor" ∧ p.2.isNa then PVal.s "Wildtype_Tumor"
    else p.2)

/-- `DataSet._join_other_to_mutations` (`dataset.py` lines 719-801):
outer-join the two sides, left-join the Sample_Status column, select the
fill shape from this call's joined table, impute the `*_Mutation`
columns, fill or drop the `*_Location` columns per `show_location`, and
fill the `*_Mutation_Status` columns.  (The initial `_add_levels`
harmonization is label-only and the aggregate back-fill warning is
advisory; neither affects the values modelled here.) -/
def joinOtherToMutationsCore (other mutations : MTable)
    (mutationsWereFiltered showLocation : Bool)
    (smap : List (String × Option String)) : MTable :=
  let joined2 := addStatusCol (outerJoin other mutations) smap
  let fills := wildtypeFills mutationsWereFiltered joined2
  let afterMut : MTable := ⟨joined2.nlevels, joined2.rows, joined2.cols.map (fun c =>
    if isMutationCol c then
      ⟨c.label, c.dtype, fillMutationCol smap joined2.rows fills.1 fills.2.1 c.cells⟩
    else c)⟩
  let afterLoc : MTable :=
    if showLocation then
      ⟨afterMut.nlevels, afterMut.rows, afterMut.cols.map (fun c =>
        if isLocationCol c then
          ⟨c.label, c.dtype, fillLocationCol smap afterMut.rows fills.2.2 c.cells⟩
        else c)⟩
    else
      ⟨afterMut.nlevels, afterMut.rows, afterMut.cols.filter (fun c => ¬ isLocationCol c)⟩
  ⟨afterLoc.nlevels, afterLoc.rows, afterLoc.cols.map (fun c =>
    if isMutationStatusCol c then
      ⟨c.label, c.dtype, fillStatusCol smap afterLoc.rows c.cells⟩
    else c)⟩

/-! ### The table registry and copy-on-read (`DataSet._get_dataframe`)

Python dataframes are heap-allocated mutable objects; `self._data` maps
table names to references into a heap of tables. -/

def lookupRef (reg : List (String × Nat)) (name : String) : Option Nat :=
  (reg.find? (fun p => p.1 = name)).map (fun p => p.2)

def dataframeNotIncludedMsg (name : String) : String :=
  name ++ " dataframe not included in this dataset."

/-- `DataSet._get_dataframe` (`dataset.py` lines 417-431): look the name
up in `self._data`; deep-copy the stored table into a fresh heap cell
and return the fresh reference, with the registry mapping unchanged (the
method never assigns to `self._data`); raise
`DataframeNotIncludedError` for an unknown name. -/
def getDataframe (reg : List (String × Nat)) (heap : List MTable) (name : String) :
    Except CptacErr (Nat × List MTable × List (String × Nat)) :=
  match lookupRef reg name with
  | some ref => .ok (heap.length, heap ++ [heap.getD ref ⟨0, [], []⟩], reg)
  | none => .error (.dataframeNotIncluded (dataframeNotIncludedMsg name))

/-! ### Helper lemmas about location parsing -/

theorem parseLoop_found (l : List Char) (n : Nat) :
    parseLoop l n true = some (l.takeWhile (fun c => c.isDigit) |>.foldl
      (fun a c => a * 10 + (c.toNat - 48)) n) := by
  induction l generalizing n with
  | nil => simp [parseLoop]
  | cons c rest ih =>
    by_cases hc : c.isDigit
    · simp [parseLoop, hc, List.takeWhile, ih]
    · simp [parseLoop, hc, List.takeWhile]

theorem parseLoop_notFound (l : List Char) :
    parseLoop l 0 false =
      if l.any (fun c => c.isDigit) then
        some ((l.dropWhile (fun c => !c.isDigit)).takeWhile (fun c => c.isDigit) |>.foldl
          (fun a c => a * 10 + (c.toNat - 48)) 0)
      else none := by
  induction l with
  | nil => simp [parseLoop]
  | cons c rest ih =>
    by_cases hc : c.isDigit
    · simp [parseLoop, hc, List.any_cons, List.dropWhile, parseLoop_found]
    · simp [parseLoop, hc, List.any_cons, List.dropWhile, ih]

/-- Full characterization of `_parse_mutation_location` on non-null input:
if the string holds a digit the first maximal digit run is returned,
otherwise the call raises `ValueError`. -/
theorem parseMutationLocation_characterization (s : String) :
    parseMutationLocation (some s) =
      if hasDigit s then some (some (firstDigitRun s)) else none := by
  show (match parseLoop s.data 0 false with
    | some n => some (some n)
    | none => none) = _
  rw [parseLoop_notFound]
  unfold hasDigit firstDigitRun
  by_cases h : s.data.any (fun c => c.isDigit) <;> simp [h]

theorem parse_of_locSafe (l : Option String) (h : locSafe l = true) :
    (l = none → parseMutationLocation l = some none) ∧
    (∀ s, l = some s → parseMutationLocation l = some (some (firstDigitRun s))) := by
  cases l with
  | none => exact ⟨fun _ => rfl, by simp⟩
  | some s =>
    refine ⟨by simp, fun s' hs' => ?_⟩
    cases hs'
    rw [parseMutationLocation_characterization]
    simp only [locSafe] at h
    simp [h]

theorem mem_indicesOf {l : List String} {v : String} {i : Nat}
    (h : i ∈ indicesOf l v) : i < l.length := by
  simp only [indicesOf, List.mem_filter, List.mem_range] at h
  exact h.1

theorem mem_indicesOfLoc {l : List (Option String)} {v : String} {i : Nat}
    (h : i ∈ indicesOfLoc l v) : i < l.length := by
  simp only [indicesOfLoc, List.mem_filter, List.mem_range] at h
  exact h.1

theorem mem_filterScan {f : List String} {muts : List String} {locs : List (Option String)}
    (hlen : locs.length = muts.length) {i : Nat}
    (h : i ∈ filterScan f muts locs) : i < muts.length := by
  induction f with
  | nil => simp [filterScan] at h
  | cons v rest ih =>
    simp only [filterScan] at h
    split at h
    · exact mem_indicesOf h
    · split at h
      · exact hlen ▸ mem_indicesOfLoc h
      · exact ih h

theorem mem_classPass {cls : List String} {muts : List String} {i : Nat}
    (h : i ∈ classPass cls muts) : i < muts.length := by
  have hall : ∀ (l : List String) (acc : List Nat), (∀ j ∈ acc, j < muts.length) →
      ∀ j ∈ List.foldl
        (fun acc m => if cls.contains m then acc ++ indicesOf muts m else acc) acc l,
      j < muts.length := by
    intro l
    induction l with
    | nil => exact fun acc hacc j hj => hacc j hj
    | cons m rest ih =>
      intro acc hacc j hj
      rw [List.foldl_cons] at hj
      refine ih _ ?_ j hj
      dsimp only
      intro k hk
      split at hk
      · rcases List.mem_append.mp hk with hk | hk
        · exact hacc k hk
        · exact mem_indicesOf hk
      · exact hacc k hk
  exact hall muts [] (fun j hj => absurd hj (List.not_mem_nil j)) i h

theorem mem_ite_cond {α : Type} {p : α → Prop} {c : Prop} [Decidable c] {X Y : List α}
    (hX : ∀ a ∈ X, p a) (hY : ∀ a ∈ Y, p a) {a : α} (ha : a ∈ if c then Y else X) : p a := by
  split at ha
  · exact hY a ha
  · exact hX a ha

theorem ite_nil_cover {α : Type} [DecidableEq α] (d X : List α) (hd : d ≠ []) :
    (if X = [] then d else X) ≠ [] := by
  split
  · exact hd
  · assumption

theorem mem_chosenIndices {cancerType : String} {f : List String}
    {muts : List String} {locs : List (Option String)}
    (hlen : locs.length = muts.length) {i : Nat}
    (h : i ∈ chosenIndices cancerType f muts locs) : i < muts.length := by
  simp only [chosenIndices] at h
  refine mem_ite_cond ?_ (fun j hj => List.mem_range.mp hj) h
  refine fun j hj => mem_ite_cond ?_ (fun k hk => mem_classPass hk) hj
  refine fun k hk => mem_ite_cond ?_ (fun m hm => mem_classPass hm) hk
  exact fun m hm =>
    mem_ite_cond (fun n hn => mem_filterScan hlen hn) (fun n hn => mem_classPass hn) hm

theorem chosenIndices_ne_nil {cancerType : String} {f : List String}
    {muts : List String} {locs : List (Option String)} (hm : muts ≠ []) :
    chosenIndices cancerType f muts locs ≠ [] := by
  simp only [chosenIndices]
  exact ite_nil_cover _ _ (by simpa [List.range_eq_nil, List.length_eq_zero] using hm)

/-- The invariant carried by the selection loop's running "soonest" pair:
its location is null or contains a digit. -/
def StInv (st : String × Option String) : Prop :=
  st.2 = none ∨ ∃ s, st.2 = some s ∧ hasDigit s = true

theorem pickStep_some {muts : List String} {locs : List (Option String)}
    (hlen : locs.length = muts.length)
    (hsafe : ∀ l ∈ locs, locSafe l = true) {i : Nat} (hi : i < muts.length)
    (st : String × Option String) (hst : StInv st) :
    ∃ st', pickStep muts locs (some st) i = some st' ∧ StInv st' := by
  obtain ⟨sm, sl⟩ := st
  have hi' : i < locs.length := hlen ▸ hi
  have hm : muts.get? i = some (muts.get ⟨i, hi⟩) := List.get?_eq_get hi
  have hl : locs.get? i = some (locs.get ⟨i, hi'⟩) := List.get?_eq_get hi'
  simp only [pickStep, hm, hl]
  cases hlv : locs.get ⟨i, hi'⟩ with
  | none => exact ⟨(sm, sl), rfl, hst⟩
  | some lv =>
    have hlsafe : locSafe (some lv) = true := hsafe _ (hlv ▸ List.get_mem locs _ _)
    have hlvd : hasDigit lv = true := hlsafe
    have hplv := (parse_of_locSafe (some lv) hlsafe).2 lv rfl
    cases sl with
    | none => exact ⟨(muts.get ⟨i, hi⟩, some lv), rfl, Or.inr ⟨lv, rfl, hlvd⟩⟩
    | some slv =>
      rcases hst with hq | ⟨s, hs, hsd⟩
      · exact absurd hq (by simp)
      · have hes : slv = s := Option.some_inj.mp hs
        have hsd2 : hasDigit slv = true := by rw [hes]; exact hsd
        have hps := (parse_of_locSafe (some slv) (by simpa [locSafe] using hsd2)).2 slv rfl
        dsimp only
        rw [hplv, hps]
        by_cases hcmp : firstDigitRun lv < firstDigitRun slv
        · refine ⟨(muts.get ⟨i, hi⟩, some lv), ?_, Or.inr ⟨lv, rfl, hlvd⟩⟩
          simp [hcmp]
        · refine ⟨(sm, some slv), ?_, Or.inr ⟨slv, rfl, hsd2⟩⟩
          simp [hcmp]

theorem foldl_pickStep_some {muts : List String} {locs : List (Option String)}
    (hlen : locs.length = muts.length)
    (hsafe : ∀ l ∈ locs, locSafe l = true) :
    ∀ (chosen : List Nat), (∀ i ∈ chosen, i < muts.length) →
    ∀ (st : String × Option String), StInv st →
    ∃ p, List.foldl (pickStep muts locs) (some st) chosen = some p := by
  intro chosen
  induction chosen with
  | nil => intro _ st _; exact ⟨st, rfl⟩
  | cons c rest ih =>
    intro hch st hst
    obtain ⟨st', hst', hinv'⟩ :=
      pickStep_some hlen hsafe (hch c (List.mem_cons_self c rest)) st hst
    simp only [List.foldl_cons, hst']
    exact ih (fun i hi => hch i (List.mem_cons_of_mem c hi)) st' hinv'

theorem filterMultipleMutations_some {cancerType : String} {f : List String}
    {muts : List String} {locs : List (Option String)}
    (hm : muts ≠ []) (hlen : locs.length = muts.length)
    (hsafe : ∀ l ∈ locs, locSafe l = true) :
    ∃ p, filterMultipleMutations cancerType f muts locs = some p := by
  unfold filterMultipleMutations pickSoonest
  have hne := @chosenIndices_ne_nil cancerType f muts locs hm
  set chosen := chosenIndices cancerType f muts locs with hchosen
  cases hc : chosen with
  | nil => exact absurd hc hne
  | cons c0 rest =>
    have hc0 : c0 < muts.length :=
      mem_chosenIndices hlen (by rw [← hchosen, hc]; exact List.mem_cons_self c0 rest)
    have hc0' : c0 < locs.length := hlen ▸ hc0
    have hm0 : muts.get? c0 = some (muts.get ⟨c0, hc0⟩) := List.get?_eq_get hc0
    have hl0 : locs.get? c0 = some (locs.get ⟨c0, hc0'⟩) := List.get?_eq_get hc0'
    simp only [hm0, hl0]
    have hinv : StInv (muts.get ⟨c0, hc0⟩, locs.get ⟨c0, hc0'⟩) := by
      cases hlv : locs.get ⟨c0, hc0'⟩ with
      | none => exact Or.inl rfl
      | some lv =>
        have := hsafe _ (hlv ▸ List.get_mem locs _ _)
        exact Or.inr ⟨lv, rfl, this⟩
    exact foldl_pickStep_some hlen hsafe (c0 :: rest)
      (fun i hi => mem_chosenIndices hlen (by rw [← hchosen, hc]; exact hi)) _ hinv

theorem mem_dedupFirstAux : ∀ (l seen : List String) (x : String),
    x ∈ dedupFirstAux l seen ↔ (x ∈ l ∧ ¬ x ∈ seen) := by
  intro l
  induction l with
  | nil => simp [dedupFirstAux]
  | cons y ys ih =>
    intro seen x
    unfold dedupFirstAux
    by_cases hy : y ∈ seen
    · rw [if_pos hy, ih seen x]
      simp only [List.mem_cons]
      constructor
      · rintro ⟨hx, hs⟩
        exact ⟨Or.inr hx, hs⟩
      · rintro ⟨hor, hs⟩
        rcases hor with rfl | hx
        · exact absurd hy hs
        · exact ⟨hx, hs⟩
    · rw [if_neg hy]
      simp only [List.mem_cons, ih (y :: seen) x]
      constructor
      · rintro (rfl | ⟨hx, hs⟩)
        · exact ⟨Or.inl rfl, hy⟩
        · exact ⟨Or.inr hx, fun hc => hs (Or.inr hc)⟩
      · rintro ⟨hor, hs⟩
        rcases hor with rfl | hx
        · exact Or.inl rfl
        · by_cases hxy : x = y
          · exact Or.inl hxy
          · refine Or.inr ⟨hx, fun hc => ?_⟩
            rcases hc with h | h
            · exact hxy h
            · exact hs h

theorem mem_dedupFirst {l : List String} {x : String} : x ∈ dedupFirst l ↔ x ∈ l := by
  unfold dedupFirst
  rw [mem_dedupFirstAux]
  simp

theorem aggregateSample_some {cancerType : String} {filter? : Option (List String)}
    {recs : List MutRecord} {s : String}
    (hsafe : ∀ r ∈ recs, locSafe r.location = true)
    (hs : s ∈ samplesOf recs) :
    ∃ c, aggregateSample cancerType filter? recs s = some c := by
  unfold aggregateSample
  cases filter? with
  | none => exact ⟨_, rfl⟩
  | some f =>
    have hsmem : s ∈ recs.map (fun r => r.sample) := mem_dedupFirst.mp hs
    obtain ⟨r, hr, hrs⟩ := List.mem_map.mp hsmem
    have hsrecs : recordsForSample recs s ≠ [] :=
      List.ne_nil_of_mem (List.mem_filter.mpr ⟨hr, by simp [hrs]⟩)
    have hmne : (recordsForSample recs s).map (fun r => r.mutation) ≠ [] := by
      simpa using hsrecs
    have hlen : ((recordsForSample recs s).map (fun r => r.location)).length
        = ((recordsForSample recs s).map (fun r => r.mutation)).length := by simp
    have hls : ∀ l ∈ (recordsForSample recs s).map (fun r => r.location),
        locSafe l = true := by
      intro l hl
      obtain ⟨r', hr', hrl⟩ := List.mem_map.mp hl
      exact hrl ▸ hsafe r' (List.mem_of_mem_filter hr')
    obtain ⟨p, hp⟩ := @filterMultipleMutations_some cancerType f _ _ hmne hlen hls
    obtain ⟨pm, pl⟩ := p
    exact ⟨MutCell.one pm pl
      (if (List.map (fun r => r.mutation) (recordsForSample recs s)).length > 1
        then "Multiple_mutation" else "Single_mutation"), by simp [hp]⟩

theorem listMapOpt_some {α β : Type} (f : α → Option β) (l : List α)
    (h : ∀ a ∈ l, ∃ b, f a = some b) : ∃ bs, listMapOpt f l = some bs := by
  induction l with
  | nil => exact ⟨[], rfl⟩
  | cons a rest ih =>
    obtain ⟨b, hb⟩ := h a (List.mem_cons_self a rest)
    obtain ⟨bs, hbs⟩ := ih (fun x hx => h x (List.mem_cons_of_mem a hx))
    exact ⟨b :: bs, by simp [listMapOpt, hb, hbs]⟩

theorem aggregateGene_some {cancerType : String} {filter? : Option (List String)}
    {recs : List MutRecord} (hsafe : ∀ r ∈ recs, locSafe r.location = true) :
    ∃ cells, aggregateGene cancerType filter? recs = some cells := by
  unfold aggregateGene
  refine listMapOpt_some _ _ ?_
  intro s hs
  obtain ⟨c, hc⟩ := @aggregateSample_some cancerType filter? recs s hsafe hs
  exact ⟨(s, c), by simp [hc]⟩

theorem checkFilterVals_ok {somatic : List MutRecord} {f : List String}
    (h : filterValsOk somatic (some f) = true) : checkFilterVals somatic f = .ok () := by
  induction f with
  | nil => rfl
  | cons v rest ih =>
    simp only [filterValsOk, List.all_cons, Bool.and_eq_true] at h
    unfold checkFilterVals
    rw [if_pos h.1]
    exact ih (by simp only [filterValsOk]; exact h.2)

theorem processGenes_zero_gene {cancerType : String} {somatic : List MutRecord}
    {filter? : Option (List String)}
    (hsafe : ∀ r ∈ somatic, locSafe r.location = true) :
    ∀ gl : List String, (∃ g ∈ gl, recordsForGene somatic g = []) →
    ∃ g, processGenes cancerType somatic filter? gl =
        some (.error (.invalidParameter (geneNotFoundMsg g))) ∧
      recordsForGene somatic g = [] := by
  intro gl
  induction gl with
  | nil =>
    rintro ⟨g, hg, _⟩
    exact absurd hg (List.not_mem_nil g)
  | cons g rest ih =>
    rintro ⟨g0, hg0, hz⟩
    by_cases hgz : recordsForGene somatic g = []
    · exact ⟨g, by simp [processGenes, hgz], hgz⟩
    · have hg0r : g0 ∈ rest := by
        rcases List.mem_cons.mp hg0 with rfl | h
        · exact absurd hz hgz
        · exact h
      obtain ⟨g1, hp1, hz1⟩ := ih ⟨g0, hg0r, hz⟩
      have hgsafe : ∀ r ∈ recordsForGene somatic g, locSafe r.location = true :=
        fun r hr => hsafe r (List.mem_of_mem_filter hr)
      obtain ⟨cells, hcells⟩ := @aggregateGene_some cancerType filter? (recordsForGene somatic g) hgsafe
      refine ⟨g1, ?_, hz1⟩
      simp [processGenes, hgz, hcells, hp1]

theorem isSome_option_map {α β : Type} (f : α → β) (o : Option α) :
    (o.map f).isSome = o.isSome := by
  cases o <;> rfl

theorem namesSubset_iff {src dst : ColIndex} :
    namesSubset src dst = true ↔ ∀ n ∈ src.names, n ∈ dst.names := by
  simp [namesSubset, List.all_eq_true]

theorem mkLevel_fst {dst src : ColIndex} {n : String}
    {e : Option String × List (Option String)}
    (h : mkLevel dst src n = some e) : e.1 = some n := by
  unfold mkLevel at h
  split at h
  · cases h; rfl
  · split at h
    · cases h; rfl
    · cases h

theorem lookupLevel_isSome_iff {x : ColIndex} {n : String} :
    (lookupLevel x n).isSome = true ↔ (some n) ∈ x.names := by
  unfold lookupLevel ColIndex.names
  rw [isSome_option_map]
  rw [List.find?_isSome]
  constructor
  · rintro ⟨p, hp, hpn⟩
    exact List.mem_map.mpr ⟨p, hp, of_decide_eq_true hpn⟩
  · rintro h
    obtain ⟨p, hp, hpn⟩ := List.mem_map.mp h
    exact ⟨p, hp, decide_eq_true hpn⟩

theorem mkLevel_isSome_iff {dst src : ColIndex} {n : String} :
    (mkLevel dst src n).isSome = true ↔
      ((some n) ∈ dst.names ∨ (some n) ∈ src.names) := by
  unfold mkLevel
  cases h : lookupLevel dst n with
  | some vs =>
    simp only [Option.isSome_some, true_iff]
    exact Or.inl (lookupLevel_isSome_iff.mp (by simp [h]))
  | none =>
    have hto : ¬ (some n) ∈ dst.names := by
      intro hc
      have := lookupLevel_isSome_iff.mpr hc
      simp [h] at this
    by_cases hsrc : (some n) ∈ src.names <;> simp [hsrc, hto]

theorem find?_filterMap_mkLevel (dst src : ColIndex) :
    ∀ ns : List String, ns.Nodup → ∀ n ∈ ns,
      ((ns.filterMap (mkLevel dst src)).find? (fun p => p.1 = some n)) =
        mkLevel dst src n := by
  intro ns
  induction ns with
  | nil => intro _ n hn; exact absurd hn (List.not_mem_nil n)
  | cons m rest ih =>
    intro hnd n hn
    rw [List.nodup_cons] at hnd
    rcases List.mem_cons.mp hn with rfl | hnr
    · cases hm : mkLevel dst src n with
      | some e =>
        have hef := mkLevel_fst hm
        rw [List.filterMap_cons]
        simp only [hm]
        rw [List.find?_cons]
        simp [hef]
      | none =>
        rw [List.filterMap_cons]
        simp only [hm]
        apply List.find?_eq_none.mpr
        intro e he
        obtain ⟨m', hm', hme⟩ := List.mem_filterMap.mp he
        have hfst : e.1 = some m' := mkLevel_fst hme
        simp only [hfst, decide_eq_true_eq, Option.some_inj]
        intro hc
        exact hnd.1 (hc ▸ hm')
    · have hnm : n ≠ m := fun h => hnd.1 (h ▸ hnr)
      cases hm : mkLevel dst src m with
      | some e =>
        have hef := mkLevel_fst hm
        rw [List.filterMap_cons]
        simp only [hm]
        rw [List.find?_cons]
        have : (decide (e.1 = some n)) = false := by
          simp [hef, hnm.symm]
        rw [this]
        exact ih hnd.2 n hnr
      | none =>
        rw [List.filterMap_cons]
        simp only [hm]
        exact ih hnd.2 n hnr

theorem lookupLevel_rebuild (dst src : ColIndex) (n : String) (hn : n ∈ allLevelNames) :
    lookupLevel ⟨dst.size, rebuildLevels dst src⟩ n =
      (mkLevel dst src n).map (fun p => p.2) := by
  unfold lookupLevel rebuildLevels
  rw [find?_filterMap_mkLevel dst src allLevelNames (by decide) n hn]

theorem mem_rebuild_names {dst src : ColIndex} {v : Option String} :
    v ∈ (ColIndex.mk dst.size (rebuildLevels dst src)).names ↔
      ∃ n ∈ allLevelNames, v = some n ∧
        ((some n) ∈ dst.names ∨ (some n) ∈ src.names) := by
  show v ∈ (rebuildLevels dst src).map (fun p => p.1) ↔ _
  unfold rebuildLevels
  rw [List.map_filterMap]
  rw [List.mem_filterMap]
  constructor
  · rintro ⟨n, hn, hv⟩
    cases hm : mkLevel dst src n with
    | none => rw [hm] at hv; cases hv
    | some e =>
      rw [hm] at hv
      have hfst := mkLevel_fst hm
      refine ⟨n, hn, ?_, ?_⟩
      · cases hv; exact hfst
      · exact mkLevel_isSome_iff.mp (by simp [hm])
  · rintro ⟨n, hn, rfl, hor⟩
    refine ⟨n, hn, ?_⟩
    have := mkLevel_isSome_iff.mpr hor
    cases hm : mkLevel dst src n with
    | none => rw [hm] at this; cases this
    | some e =>
      simp [mkLevel_fst hm]

theorem addLevels_self_of_canonical {dst src : ColIndex} {source2 : ColIndex}
    (hne : rebuildLevels dst src ≠ [])
    (hsub : ∀ n ∈ allLevelNames, (some n) ∈ source2.names →
      (some n) ∈ (ColIndex.mk dst.size (rebuildLevels dst src)).names) :
    addLevels ⟨dst.size, rebuildLevels dst src⟩ source2 =
      some ⟨dst.size, rebuildLevels dst src⟩ := by
  by_cases hs : namesSubset source2 ⟨dst.size, rebuildLevels dst src⟩
  · simp [addLevels, hs]
  · have hlv : rebuildLevels ⟨dst.size, rebuildLevels dst src⟩ source2 =
        rebuildLevels dst src := by
      show allLevelNames.filterMap (mkLevel ⟨dst.size, rebuildLevels dst src⟩ source2) =
        allLevelNames.filterMap (mkLevel dst src)
      apply List.filterMap_congr
      intro n hn
      cases hm : mkLevel dst src n with
      | some e =>
        have hfst := mkLevel_fst hm
        have hlr : lookupLevel ⟨dst.size, rebuildLevels dst src⟩ n = some e.2 := by
          rw [lookupLevel_rebuild dst src n hn, hm]
          rfl
        unfold mkLevel
        rw [hlr]
        show some (some n, e.2) = some e
        have hpe : ((some n, e.2) : Option String × List (Option String)) = e := by
          cases e
          simp only at hfst
          simp [hfst]
        rw [hpe]
      | none =>
        have hnotr : ¬ (some n) ∈ (ColIndex.mk dst.size (rebuildLevels dst src)).names := by
          intro hc
          have := lookupLevel_isSome_iff.mpr hc
          rw [lookupLevel_rebuild dst src n hn, hm] at this
          cases this
        have hnot2 : ¬ (some n) ∈ source2.names := fun hc => hnotr (hsub n hn hc)
        have hlr : lookupLevel ⟨dst.size, rebuildLevels dst src⟩ n = none := by
          rw [lookupLevel_rebuild dst src n hn, hm]
          rfl
        unfold mkLevel
        rw [hlr]
        simp [hnot2]
    unfold addLevels
    rw [if_neg hs, hlv, if_neg hne]

theorem rebuild_names_formula (dst src : ColIndex) :
    (ColIndex.mk dst.size (rebuildLevels dst src)).names =
      allLevelNames.filterMap (fun n =>
        if (some n) ∈ dst.names ∨ (some n) ∈ src.names then some (some n) else none) := by
  show (rebuildLevels dst src).map (fun p => p.1) = _
  unfold rebuildLevels
  rw [List.map_filterMap]
  apply List.filterMap_congr
  intro n _
  cases hm : mkLevel dst src n with
  | some e =>
    have hor := mkLevel_isSome_iff.mp (by rw [hm]; rfl)
    simp [hm, mkLevel_fst hm, hor]
  | none =>
    have hor : ¬ ((some n) ∈ dst.names ∨ (some n) ∈ src.names) := by
      intro hc
      have := mkLevel_isSome_iff.mpr hc
      rw [hm] at this
      cases this
    simp [hm, hor]

theorem addLevels_cases {dst src x : ColIndex} (h : addLevels dst src = some x) :
    (namesSubset src dst = true ∧ x = dst) ∨
      (¬ namesSubset src dst = true ∧ rebuildLevels dst src ≠ [] ∧
        x = ⟨dst.size, rebuildLevels dst src⟩) := by
  unfold addLevels at h
  by_cases hs : namesSubset src dst
  · rw [if_pos hs] at h
    exact Or.inl ⟨hs, (Option.some_inj.mp h).symm⟩
  · rw [if_neg hs] at h
    by_cases hr : rebuildLevels dst src = []
    · rw [if_pos hr] at h; cases h
    · rw [if_neg hr] at h
      exact Or.inr ⟨hs, hr, (Option.some_inj.mp h).symm⟩

theorem addLevels_of_subset {dst src : ColIndex} (hs : namesSubset src dst = true) :
    addLevels dst src = some dst := by
  unfold addLevels
  rw [if_pos hs]

theorem mem_rebuild_names_of_right {dst src : ColIndex} {n : String}
    (hn : n ∈ allLevelNames) (h : (some n) ∈ src.names) :
    (some n) ∈ (ColIndex.mk dst.size (rebuildLevels dst src)).names :=
  mem_rebuild_names.mpr ⟨n, hn, rfl, Or.inr h⟩

theorem double_rebuild_names_eq (a b : ColIndex) :
    (ColIndex.mk b.size (rebuildLevels b ⟨a.size, rebuildLevels a b⟩)).names =
      (ColIndex.mk a.size (rebuildLevels a b)).names := by
  rw [rebuild_names_formula, rebuild_names_formula]
  apply List.filterMap_congr
  intro n hn
  have hmem : (some n) ∈ allLevelNames.filterMap (fun m =>
      if (some m) ∈ a.names ∨ (some m) ∈ b.names then some (some m) else none) ↔
      ((some n) ∈ a.names ∨ (some n) ∈ b.names) := by
    rw [List.mem_filterMap]
    constructor
    · rintro ⟨m, hm, he⟩
      by_cases hp : (some m) ∈ a.names ∨ (some m) ∈ b.names
      · rw [if_pos hp] at he
        have := Option.some_inj.mp (Option.some_inj.mp he)
        subst this
        exact hp
      · rw [if_neg hp] at he
        cases he
    · intro hor
      exact ⟨n, hn, by rw [if_pos hor]⟩
  apply if_congr _ rfl rfl
  rw [hmem]
  constructor
  · rintro (h | h)
    · exact Or.inr h
    · exact h
  · intro h
    exact Or.inr h

theorem harmonizePair_stable {a b a1 b1 : ColIndex}
    (h : harmonizePair a b = some (a1, b1)) :
    harmonizePair a1 b1 = some (a1, b1) := by
  unfold harmonizePair at h
  by_cases hab : a.names = b.names
  · rw [if_pos hab] at h
    injection Option.some_inj.mp h with h1 h2
    subst h1; subst h2
    unfold harmonizePair
    rw [if_pos hab]
  · rw [if_neg hab] at h
    cases ha : addLevels a b with
    | none => rw [ha] at h; cases h
    | some x =>
      rw [ha] at h
      dsimp only at h
      cases hb : addLevels b x with
      | none => rw [hb] at h; cases h
      | some y =>
        rw [hb] at h
        dsimp only at h
        injection Option.some_inj.mp h with h1 h2
        subst h1; subst h2
        rcases addLevels_cases ha with ⟨hs1, rfl⟩ | ⟨hs1, hne1, rfl⟩
        · rcases addLevels_cases hb with ⟨hs2, rfl⟩ | ⟨hs2, hne2, rfl⟩
          · unfold harmonizePair
            rw [if_neg hab, addLevels_of_subset hs1]
            dsimp only
            rw [addLevels_of_subset hs2]
          · by_cases hay : x.names = (ColIndex.mk b.size (rebuildLevels b x)).names
            · unfold harmonizePair
              rw [if_pos hay]
            · have hsub1 : namesSubset ⟨b.size, rebuildLevels b x⟩ x = true := by
                rw [namesSubset_iff]
                intro v hv
                obtain ⟨n, hn, rfl, hor⟩ := mem_rebuild_names.mp hv
                rcases hor with hbn | hxn
                · exact namesSubset_iff.mp hs1 _ hbn
                · exact hxn
              have e2 : addLevels ⟨b.size, rebuildLevels b x⟩ x =
                  some ⟨b.size, rebuildLevels b x⟩ :=
                addLevels_self_of_canonical hne2
                  (fun n hn hsn => mem_rebuild_names_of_right hn hsn)
              unfold harmonizePair
              rw [if_neg hay, addLevels_of_subset hsub1]
              dsimp only
              rw [e2]
        · rcases addLevels_cases hb with ⟨hs2, rfl⟩ | ⟨hs2, hne2, rfl⟩
          · by_cases hay : (ColIndex.mk a.size (rebuildLevels a y)).names = y.names
            · unfold harmonizePair
              rw [if_pos hay]
            · have e1 : addLevels ⟨a.size, rebuildLevels a y⟩ y =
                  some ⟨a.size, rebuildLevels a y⟩ :=
                addLevels_self_of_canonical hne1
                  (fun n hn hsn => mem_rebuild_names_of_right hn hsn)
              unfold harmonizePair
              rw [if_neg hay, e1]
              dsimp only
              rw [addLevels_of_subset hs2]
          · have hnames := double_rebuild_names_eq a b
            unfold harmonizePair
            rw [if_pos hnames.symm]

theorem mem_indexDifference {xs ys : List String} {g : String} :
    g ∈ indexDifference xs ys ↔ (g ∈ xs ∧ ¬ g ∈ ys) := by
  unfold indexDifference
  rw [(List.perm_insertionSort (fun x y => x ≤ y) _).mem_iff]
  rw [mem_dedupFirst]
  rw [List.mem_filter]
  simp

theorem lookupCol_eq_none_iff {t : FlatTable} {g : String} :
    lookupCol t g = none ↔ ¬ g ∈ t.colLabels := by
  unfold lookupCol FlatTable.colLabels
  constructor
  · intro h hc
    obtain ⟨c, hcm, hcg⟩ := List.mem_map.mp hc
    have : (t.cols.find? (fun c => c.1 = g)).isSome :=
      List.find?_isSome.mpr ⟨c, hcm, decide_eq_true hcg⟩
    cases hf : t.cols.find? (fun c => c.1 = g) with
    | none => rw [hf] at this; cases this
    | some q => rw [hf] at h; cases h
  · intro h
    cases hf : t.cols.find? (fun c => c.1 = g) with
    | none => rfl
    | some q =>
      have hq := List.find?_some hf
      have hqm := List.mem_of_find?_eq_some hf
      exact absurd (List.mem_map.mpr ⟨q, hqm, of_decide_eq_true hq⟩) h

theorem lookupCol_filterMap_of_none {df : FlatTable} {rows : List String}
    {contained : List String} {g : String} (h : lookupCol df g = none) :
    lookupCol ⟨rows, contained.filterMap
      (fun g' => (lookupCol df g').map (fun v => (g', v)))⟩ g = none := by
  have hfind : (List.find? (fun c => decide (c.1 = g)) (contained.filterMap
      (fun g' => (lookupCol df g').map (fun v => (g', v))))) = none := by
    apply List.find?_eq_none.mpr
    intro e he
    obtain ⟨g', hg', hge⟩ := List.mem_filterMap.mp he
    cases hl : lookupCol df g' with
    | none => rw [hl] at hge; cases hge
    | some v =>
      rw [hl] at hge
      have he1 : e.1 = g' := by cases Option.some_inj.mp hge; rfl
      simp only [he1, decide_eq_true_eq]
      intro hc
      rw [hc] at hl
      rw [hl] at h
      cases h
  show (List.find? (fun c => decide (c.1 = g)) (contained.filterMap
      (fun g' => (lookupCol df g').map (fun v => (g', v))))).map (fun c => c.2) = none
  rw [hfind]
  rfl

theorem lookupCol_filterMap_of_some {df : FlatTable} {rows : List String} {g : String}
    {v : List (Option String)} (hv : lookupCol df g = some v) :
    ∀ contained : List String, g ∈ contained →
    lookupCol ⟨rows, contained.filterMap
      (fun g' => (lookupCol df g').map (fun v => (g', v)))⟩ g = some v := by
  intro contained
  induction contained with
  | nil => intro h; exact absurd h (List.not_mem_nil g)
  | cons c cs ih =>
    intro hg
    show (List.find? (fun p => decide (p.1 = g)) ((c :: cs).filterMap
        (fun g' => (lookupCol df g').map (fun v => (g', v))))).map (fun p => p.2) = some v
    rw [List.filterMap_cons]
    by_cases hcg : c = g
    · rw [hcg, hv]
      show (List.find? (fun p => decide (p.1 = g)) ((g, v) :: cs.filterMap
          (fun g' => (lookupCol df g').map (fun v => (g', v))))).map (fun p => p.2) = some v
      rw [List.find?_cons_of_pos _ (by simp)]
      rfl
    · have hgcs : g ∈ cs := List.mem_of_ne_of_mem (fun h => hcg h.symm) hg
      cases hl : lookupCol df c with
      | none => exact ih hgcs
      | some w =>
        show (List.find? (fun p => decide (p.1 = g)) ((c, w) :: cs.filterMap
            (fun g' => (lookupCol df g').map (fun v => (g', v))))).map (fun p => p.2) = some v
        rw [List.find?_cons_of_neg _ (by simp [hcg])]
        exact ih hgcs

theorem getOmicsColsFlat_cols (omicsName : String) (df : FlatTable) (genes : List String) :
    (getOmicsColsFlat omicsName df genes).1.cols = genes.map (fun g =>
      (g ++ "_" ++ omicsName,
        (lookupCol df g).getD (List.replicate df.rows.length none))) := by
  simp only [getOmicsColsFlat]
  rw [List.map_map]
  apply List.map_congr_left
  intro g hg
  dsimp only [Function.comp]
  cases hl : lookupCol df g with
  | some v =>
    have hlab : g ∈ df.colLabels := by
      by_contra hc
      rw [lookupCol_eq_none_iff.mpr hc] at hl
      cases hl
    have hcont : g ∈ dedupFirst (genes.filter (fun x => decide (x ∈ df.colLabels))) :=
      mem_dedupFirst.mpr (List.mem_filter.mpr ⟨hg, decide_eq_true hlab⟩)
    rw [lookupCol_filterMap_of_some hl _ hcont]
    rfl
  | none =>
    rw [lookupCol_filterMap_of_none hl]
    rfl

theorem missing_labels_char (df : FlatTable) (genes : List String) (g : String) :
    g ∈ indexDifference genes
        (dedupFirst (genes.filter (fun x => decide (x ∈ df.colLabels)))) ↔
      (g ∈ genes ∧ ¬ g ∈ df.colLabels) := by
  rw [mem_indexDifference, mem_dedupFirst, List.mem_filter]
  constructor
  · rintro ⟨hg, hn⟩
    exact ⟨hg, fun hc => hn ⟨hg, decide_eq_true hc⟩⟩
  · rintro ⟨hg, hn⟩
    exact ⟨hg, fun hc => hn (of_decide_eq_true hc.2)⟩

theorem pandasUnion_sorted (a b : List String) :
    (pandasUnion a b).Sorted (fun x y => x ≤ y) :=
  List.sorted_insertionSort _ _

theorem sortIndex_rows_sorted (t : MTable) :
    (sortIndex t).rows.Sorted (fun x y => x ≤ y) :=
  List.sorted_insertionSort _ _

theorem joinOtherToMutationsCore_rows (other mutations : MTable)
    (f sl : Bool) (smap : List (String × Option String)) :
    (joinOtherToMutationsCore other mutations f sl smap).rows =
      pandasUnion other.rows mutations.rows := by
  unfold joinOtherToMutationsCore
  dsimp only
  split <;> rfl

theorem map_zip_get? {α β γ : Type} (f : α × β → γ) :
    ∀ (xs : List α) (ys : List β) (i : Nat) (x : α) (y : β),
      xs.get? i = some x → ys.get? i = some y →
      ((xs.zip ys).map f).get? i = some (f (x, y)) := by
  intro xs ys i x y hx hy
  have hz : (xs.zip ys).get? i = some (x, y) :=
    (List.get?_zip_eq_some _ _ _ _).mpr ⟨hx, hy⟩
  rw [List.get?_eq_getElem?] at hz ⊢
  rw [List.getElem?_map, hz]
  rfl

theorem suffix_excludes {a b : List Char} (hab : ¬ a <:+ b) (hba : ¬ b <:+ a) :
    ∀ s : List Char, a <:+ s → ¬ b <:+ s := by
  intro s ha hb
  rcases List.suffix_or_suffix_of_suffix ha hb with h | h
  · exact hab h
  · exact hba h

theorem isMutationCol_not_location {c : MCol} (h : isMutationCol c = true) :
    isLocationCol c = false := by
  unfold isMutationCol isLocationCol nameMatches at *
  cases hn : nameLevel c with
  | none => rfl
  | some s =>
    rw [hn] at h
    have hsuf : "_Mutation".data <:+ s.data := of_decide_eq_true h
    exact decide_eq_false
      (suffix_excludes (by decide) (by decide) s.data hsuf)

theorem isMutationCol_not_mutationStatus {c : MCol} (h : isMutationCol c = true) :
    isMutationStatusCol c = false := by
  unfold isMutationCol isMutationStatusCol nameMatches at *
  cases hn : nameLevel c with
  | none => rfl
  | some s =>
    rw [hn] at h
    have hsuf : "_Mutation".data <:+ s.data := of_decide_eq_true h
    exact decide_eq_false
      (suffix_excludes (by decide) (by decide) s.data hsuf)

theorem nameLevel_statusLabel (nlv : Nat) (d : Dtype) (cells : List PVal) :
    nameLevel ⟨statusLabel nlv, d, cells⟩ = some "Sample_Status" := by
  unfold nameLevel statusLabel
  split <;> rfl

theorem statusCol_not_mutation (nlv : Nat) (d : Dtype) (cells : List PVal) :
    isMutationCol ⟨statusLabel nlv, d, cells⟩ = false := by
  unfold isMutationCol nameMatches
  rw [nameLevel_statusLabel]
  exact decide_eq_false (by decide)

theorem statusCol_not_location (nlv : Nat) (d : Dtype) (cells : List PVal) :
    isLocationCol ⟨statusLabel nlv, d, cells⟩ = false := by
  unfold isLocationCol nameMatches
  rw [nameLevel_statusLabel]
  exact decide_eq_false (by decide)

theorem statusCol_not_mutationStatus (nlv : Nat) (d : Dtype) (cells : List PVal) :
    isMutationStatusCol ⟨statusLabel nlv, d, cells⟩ = false := by
  unfold isMutationStatusCol nameMatches
  rw [nameLevel_statusLabel]
  exact decide_eq_false (by decide)

theorem mutationCol_in_result (other mutations : MTable)
    (f sl : Bool) (smap : List (String × Option String)) (c : MCol)
    (hc : c ∈ (addStatusCol (outerJoin other mutations) smap).cols)
    (hmut : isMutationCol c = true) :
    (⟨c.label, c.dtype,
        fillMutationCol smap (pandasUnion other.rows mutations.rows)
          (wildtypeFills f (addStatusCol (outerJoin other mutations) smap)).1
          (wildtypeFills f (addStatusCol (outerJoin other mutations) smap)).2.1
          c.cells⟩ : MCol) ∈
      (joinOtherToMutationsCore other mutations f sl smap).cols := by
  unfold joinOtherToMutationsCore
  dsimp only
  have hrows : (addStatusCol (outerJoin other mutations) smap).rows =
      pandasUnion other.rows mutations.rows := rfl
  set cM : MCol := ⟨c.label, c.dtype,
    fillMutationCol smap (pandasUnion other.rows mutations.rows)
      (wildtypeFills f (addStatusCol (outerJoin other mutations) smap)).1
      (wildtypeFills f (addStatusCol (outerJoin other mutations) smap)).2.1
      c.cells⟩ with hcM
  have hstage1 : cM ∈ ((addStatusCol (outerJoin other mutations) smap).cols.map (fun c =>
      if isMutationCol c then
        ⟨c.label, c.dtype,
          fillMutationCol smap (addStatusCol (outerJoin other mutations) smap).rows
            (wildtypeFills f (addStatusCol (outerJoin other mutations) smap)).1
            (wildtypeFills f (addStatusCol (outerJoin other mutations) smap)).2.1
            c.cells⟩
      else c)) := by
    refine List.mem_map.mpr ⟨c, hc, ?_⟩
    rw [if_pos hmut]
    rfl
  have hMlab : nameLevel cM = nameLevel c := rfl
  have hMmut : isMutationCol cM = true := by
    unfold isMutationCol nameMatches at hmut ⊢
    rw [hMlab]
    exact hmut
  have hMloc : isLocationCol cM = false := isMutationCol_not_location hMmut
  have hMst : isMutationStatusCol cM = false := isMutationCol_not_mutationStatus hMmut
  split
  · refine List.mem_map.mpr ⟨cM, ?_, ?_⟩
    · refine List.mem_map.mpr ⟨cM, hstage1, ?_⟩
      rw [if_neg (by rw [hMloc]; exact Bool.false_ne_true)]
    · rw [if_neg (by rw [hMst]; exact Bool.false_ne_true)]
  · refine List.mem_map.mpr ⟨cM, ?_, ?_⟩
    · refine List.mem_filter.mpr ⟨hstage1, ?_⟩
      simp [hMloc]
    · rw [if_neg (by rw [hMst]; exact Bool.false_ne_true)]

theorem fillMutationCol_get? (smap : List (String × Option String))
    (rows : List String) (fN fT : PVal) (cells : List PVal)
    (i : Nat) (r : String) (v : PVal)
    (hr : rows.get? i = some r) (hv : cells.get? i = some v) :
    (fillMutationCol smap rows fN fT cells).get? i = some (
      if statusOf smap r = some "Normal" ∧ v.isNa then locAssignValue fN
      else if statusOf smap r = some "Tumor" ∧ v.isNa then locAssignValue fT
      else v) := by
  unfold fillMutationCol
  exact map_zip_get? _ rows cells i r v hr hv

theorem getDataframe_copy_on_read (reg : List (String × Nat)) (heap : List MTable)
    (name : String) (ref' : Nat) (heap' : List MTable) (reg' : List (String × Nat))
    (hwf : ∀ p ∈ reg, p.2 < heap.length)
    (hok : getDataframe reg heap name = .ok (ref', heap', reg')) :
    reg' = reg ∧
    (∀ p ∈ reg, p.2 ≠ ref') ∧
    (∀ p ∈ reg, heap'.get? p.2 = heap.get? p.2) ∧
    (∀ t : MTable, ∀ p ∈ reg, (heap'.set ref' t).get? p.2 = heap.get? p.2) ∧
    (∃ ref, lookupRef reg name = some ref ∧ heap'.get? ref' = heap.get? ref) := by
  unfold getDataframe at hok
  cases hlk : lookupRef reg name with
  | none => rw [hlk] at hok; cases hok
  | some ref =>
    rw [hlk] at hok
    injection hok with hok
    injection hok with h1 hok
    injection hok with h2 h3
    subst h1; subst h2; subst h3
    have hreflt : ref < heap.length := by
      unfold lookupRef at hlk
      cases hf : reg.find? (fun p => p.1 = name) with
      | none => rw [hf] at hlk; cases hlk
      | some p =>
        rw [hf] at hlk
        have hm := List.mem_of_find?_eq_some hf
        have : p.2 = ref := Option.some_inj.mp hlk
        rw [← this]
        exact hwf p hm
    refine ⟨rfl, ?_, ?_, ?_, ?_⟩
    · intro p hp
      exact Nat.ne_of_lt (hwf p hp)
    · intro p hp
      rw [List.get?_eq_getElem?, List.get?_eq_getElem?]
      exact List.getElem?_append_left (hwf p hp)
    · intro t p hp
      rw [List.get?_eq_getElem?, List.get?_eq_getElem?]
      rw [List.getElem?_set_ne (Nat.ne_of_lt (hwf p hp)).symm]
      exact List.getElem?_append_left (hwf p hp)
    · refine ⟨ref, rfl, ?_⟩
      rw [List.get?_eq_getElem?, List.get?_eq_getElem?]
      rw [List.getElem?_concat_length]
      cases hv : heap[ref]? with
      | none =>
        rw [List.getElem?_eq_none_iff] at hv
        exact absurd hreflt (Nat.not_lt.mpr hv)
      | some v =>
        rw [List.getD_eq_getElem?_getD, hv]
        rfl

theorem wildtypeFills_fst (b : Bool) (J : MTable) :
    locAssignValue (wildtypeFills b J).1 =
      (if b then PVal.s "Wildtype_Normal"
       else if J.cols.all (fun x => x.dtype = Dtype.object) then
         PVal.list [PVal.s "Wildtype_Normal"]
       else PVal.list [PVal.list [PVal.s "Wildtype_Normal"]]) := by
  cases b with
  | true => rfl
  | false =>
    unfold wildtypeFills
    by_cases ha : J.cols.all (fun x => x.dtype = Dtype.object)
    · rw [if_neg Bool.false_ne_true, if_pos ha, if_neg Bool.false_ne_true, if_pos ha]
      rfl
    · rw [if_neg Bool.false_ne_true, if_neg ha, if_neg Bool.false_ne_true, if_neg ha]
      rfl

theorem statusCol_in_result (other mutations : MTable) (f sl : Bool)
    (smap : List (String × Option String)) :
    (⟨statusLabel (max other.nlevels mutations.nlevels), Dtype.object,
        (pandasUnion other.rows mutations.rows).map (fun r =>
          match statusOf smap r with
          | some s => PVal.s s
          | none => PVal.na)⟩ : MCol) ∈
      (joinOtherToMutationsCore other mutations f sl smap).cols := by
  unfold joinOtherToMutationsCore
  dsimp only
  set sc : MCol := ⟨statusLabel (max other.nlevels mutations.nlevels), Dtype.object,
    (pandasUnion other.rows mutations.rows).map (fun r =>
      match statusOf smap r with
      | some s => PVal.s s
      | none => PVal.na)⟩ with hsc
  have hmem : sc ∈ (addStatusCol (outerJoin other mutations) smap).cols := by
    show sc ∈ (outerJoin other mutations).cols ++ [sc]
    exact List.mem_append_right _ (List.mem_singleton_self sc)
  have hnm : isMutationCol sc = false := statusCol_not_mutation _ _ _
  have hnl : isLocationCol sc = false := statusCol_not_location _ _ _
  have hns : isMutationStatusCol sc = false := statusCol_not_mutationStatus _ _ _
  have hstage1 : sc ∈ ((addStatusCol (outerJoin other mutations) smap).cols.map (fun c =>
      if isMutationCol c then
        ⟨c.label, c.dtype,
          fillMutationCol smap (addStatusCol (outerJoin other mutations) smap).rows
            (wildtypeFills f (addStatusCol (outerJoin other mutations) smap)).1
            (wildtypeFills f (addStatusCol (outerJoin other mutations) smap)).2.1
            c.cells⟩
      else c)) := by
    refine List.mem_map.mpr ⟨sc, hmem, ?_⟩
    rw [if_neg (by rw [hnm]; exact Bool.false_ne_true)]
  split
  · refine List.mem_map.mpr ⟨sc, ?_, ?_⟩
    · refine List.mem_map.mpr ⟨sc, hstage1, ?_⟩
      rw [if_neg (by rw [hnl]; exact Bool.false_ne_true)]
    · rw [if_neg (by rw [hns]; exact Bool.false_ne_true)]
  · refine List.mem_map.mpr ⟨sc, ?_, ?_⟩
    · refine List.mem_filter.mpr ⟨hstage1, ?_⟩
      simp [hnl]
    · rw [if_neg (by rw [hns]; exact Bool.false_ne_true)]

theorem statusOf_absent {clinical : FlatTable} {smap : List (String × Option String)}
    (hsm : getSampleStatusMap clinical = some smap)
    {r : String} (hr : ¬ r ∈ clinical.rows) : statusOf smap r = none := by
  unfold getSampleStatusMap at hsm
  cases hl : lookupCol clinical "Sample_Tumor_Normal" with
  | none => rw [hl] at hsm; cases hsm
  | some v =>
    rw [hl] at hsm
    have hzip : clinical.rows.zip v = smap := Option.some_inj.mp hsm
    unfold statusOf
    cases hf : smap.find? (fun p => p.1 = r) with
    | none => rfl
    | some p =>
      obtain ⟨p1, p2⟩ := p
      have hp := List.find?_some hf
      have hpm := List.mem_of_find?_eq_some hf
      rw [← hzip] at hpm
      have hmemr : p1 ∈ clinical.rows := (List.of_mem_zip hpm).1
      have he : p1 = r := of_decide_eq_true hp
      rw [he] at hmemr
      exact absurd hmemr hr

/-! ### Claims -/

/-- Claim C1: for the prioritizer with cancer type "colon", an empty
filter, mutations `["Silent", "frameshift deletion"]` and parallel
locations `["p.5", "p.3"]`, `_filter_multiple_mutations` returns the pair
`("frameshift deletion", "p.3")`: no filter token matches, the colon
truncating class contains "frameshift deletion", and that sole candidate
wins with its location. -/
theorem c1_colon_prioritizer_scenario :
    filterMultipleMutations "colon" [] ["Silent", "frameshift deletion"]
      [some "p.5", some "p.3"] = some ("frameshift deletion", some "p.3") := by
  decide

/-- Claim C2 (counterexample): the claim says a non-null digit-free
location string such as "splice" parses to the missing-value marker
rather than failing; in the code `int("")` raises `ValueError` instead
(`none` in the embedding), so the parse does not return the missing
marker (`some none`). -/
theorem c2_counterexample_splice_raises :
    parseMutationLocation (some "splice") = none ∧
      ¬ parseMutationLocation (some "splice") = some none := by
  decide

/-- Claim C2 (amended): for every non-null location string holding at
least one digit, `_parse_mutation_location` returns the integer formed
from the first maximal run of decimal digits (scanning left to right); a
non-null digit-free string raises `ValueError` instead of returning the
missing marker; a null location returns the missing marker unchanged.
In particular parse("p.R273H") = 273 and parse("c.1234_1235del") =
1234. -/
theorem c2_amended_first_digit_run (s : String) :
    (parseMutationLocation (some s) =
      if hasDigit s then some (some (firstDigitRun s)) else none) ∧
    parseMutationLocation none = some none ∧
    firstDigitRun "p.R273H" = 273 ∧
    firstDigitRun "c.1234_1235del" = 1234 :=
  ⟨parseMutationLocation_characterization s, rfl, by decide, by decide⟩

/-- Claim C3: for every aggregation request whose filter values pass the
whole-table validation and whose location strings are parseable, if some
requested gene has zero matching records anywhere in the
somatic_mutation table, `_get_genes_mutations` aborts with the hard
error the spec taxonomy calls `InvalidGene` — in the code an
`InvalidParameterError` whose message is `"<gene> gene not found in
somatic_mutation data."` — raised for a gene with an empty slice, and no
partial result is produced (the `Except` is an error, not a warning). -/
theorem c3_zero_record_gene_hard_error (cancerType : String)
    (somatic : List MutRecord) (genes : List String)
    (filter? : Option (List String))
    (hfil : filterValsOk somatic filter? = true)
    (hsafe : ∀ r ∈ somatic, locSafe r.location = true)
    (hzero : ∃ g ∈ genes, recordsForGene somatic g = []) :
    ∃ g, getGenesMutations cancerType somatic genes filter? =
        some (.error (.invalidParameter (geneNotFoundMsg g))) ∧
      recordsForGene somatic g = [] := by
  have hzero' : ∃ g ∈ dedupFirst genes, recordsForGene somatic g = [] := by
    obtain ⟨g, hg, hz⟩ := hzero
    exact ⟨g, mem_dedupFirst.mpr hg, hz⟩
  unfold getGenesMutations
  cases filter? with
  | none => exact processGenes_zero_gene hsafe _ hzero'
  | some fl =>
    dsimp only
    rw [checkFilterVals_ok hfil]
    exact processGenes_zero_gene hsafe _ hzero'

theorem c3_witness :
    ∃ g, getGenesMutations "colon"
        [⟨"S001", "TP53", "Silent", some "p.5"⟩] ["KRAS"] none =
        some (.error (.invalidParameter (geneNotFoundMsg g))) ∧
      recordsForGene [⟨"S001", "TP53", "Silent", some "p.5"⟩] g = [] :=
  c3_zero_record_gene_hard_error "colon"
    [⟨"S001", "TP53", "Silent", some "p.5"⟩] ["KRAS"] none
    (by decide) (by decide) (by decide)

/-- Claim C4: all four join operations return a table whose row index is
sorted ascending.  omics-omics, metadata-metadata and metadata-omics sort
explicitly (`sort_index`); the mutation join's row index is the pandas
outer-join union of the two sorted sample indexes, which pandas returns
sorted for comparable (string) labels, as `pandasUnion` models. -/
theorem c4_join_row_index_sorted (s1 s2 m1 m2 mo1 mo2 other mutations : MTable)
    (df2Name : String) (f sl : Bool) (smap : List (String × Option String)) :
    List.Sorted (fun x y => x ≤ y) (joinOmicsToOmicsCore s1 s2).rows ∧
    List.Sorted (fun x y => x ≤ y) (joinMetadataToMetadataCore df2Name m1 m2).rows ∧
    List.Sorted (fun x y => x ≤ y) (joinMetadataToOmicsCore mo1 mo2).rows ∧
    List.Sorted (fun x y => x ≤ y)
      (joinOtherToMutationsCore other mutations f sl smap).rows := by
  refine ⟨sortIndex_rows_sorted _, sortIndex_rows_sorted _, sortIndex_rows_sorted _, ?_⟩
  rw [joinOtherToMutationsCore_rows]
  exact pandasUnion_sorted _ _

/-- Claim C5: `_add_levels`-based harmonization is idempotent: whenever
the two-sided harmonization of a pair of column indexes succeeds,
re-harmonizing the already-harmonized pair changes nothing; and in
particular, when one index's level-name set contains the other's, that
index is returned unchanged (the early no-op return). -/
theorem c5_harmonize_idempotent (a b a1 b1 : ColIndex)
    (h : harmonizePair a b = some (a1, b1)) :
    harmonizePair a1 b1 = some (a1, b1) ∧
      (∀ x y : ColIndex, namesSubset y x = true → addLevels x y = some x) :=
  ⟨harmonizePair_stable h, fun x y hs => addLevels_of_subset hs⟩

theorem c5_witness :
    harmonizePair
        ⟨1, [(some "Name", [some "TP53"]), (some "Site", [(none : Option String)])]⟩
        ⟨1, [(some "Name", [some "EGFR"]), (some "Site", [some "S1"])]⟩ =
      some (⟨1, [(some "Name", [some "TP53"]), (some "Site", [none])]⟩,
        ⟨1, [(some "Name", [some "EGFR"]), (some "Site", [some "S1"])]⟩) :=
  (c5_harmonize_idempotent
    ⟨1, [(some "Name", [some "TP53"])]⟩
    ⟨1, [(some "Name", [some "EGFR"]), (some "Site", [some "S1"])]⟩
    ⟨1, [(some "Name", [some "TP53"]), (some "Site", [none])]⟩
    ⟨1, [(some "Name", [some "EGFR"]), (some "Site", [some "S1"])]⟩
    (by decide)).1

/-- Claim C6 (counterexample): the claim says the selection has exactly
one column per requested key, deduplicated; but the code reindexes to
the non-deduplicated requested index, so requesting `["TP53", "TP53"]`
from a flat table yields two `TP53` columns while the deduplicated
request has one entry. -/
theorem c6_counterexample_duplicate_request :
    (getOmicsColsFlat "proteomics" ⟨["S001"], [("TP53", [some "1"])]⟩
        ["TP53", "TP53"]).1.cols.length ≠
      (dedupFirst ["TP53", "TP53"]).length := by
  decide

/-- Claim C6 (amended): for every flat-column omics selection with a key
list, requested labels not found in the table are synthesized as
all-missing (`NaN`) columns, at most one warning is emitted and it names
exactly the missing labels, and the result has exactly one column per
requested key occurrence (duplicates preserved), in request order, each
label suffixed with the table name.  (With a multi-level column index the
result is instead reindexed to a sorted, deduplicated union, which this
flat-case statement does not cover.) -/
theorem c6_amended_flat_selection (omicsName : String) (df : FlatTable)
    (genes : List String) :
    ((getOmicsColsFlat omicsName df genes).1.rows = df.rows) ∧
    ((getOmicsColsFlat omicsName df genes).1.cols = genes.map (fun g =>
      (g ++ "_" ++ omicsName,
        (lookupCol df g).getD (List.replicate df.rows.length none)))) ∧
    ((getOmicsColsFlat omicsName df genes).2.length ≤ 1) ∧
    ((getOmicsColsFlat omicsName df genes).2 = [] ↔ ∀ g ∈ genes, g ∈ df.colLabels) ∧
    (∀ w ∈ (getOmicsColsFlat omicsName df genes).2, ∀ g,
      (g ∈ w ↔ g ∈ genes ∧ ¬ g ∈ df.colLabels)) := by
  have hw : (getOmicsColsFlat omicsName df genes).2 =
      if indexDifference genes
          (dedupFirst (genes.filter (fun x => decide (x ∈ df.colLabels)))) = [] then []
      else [indexDifference genes
        (dedupFirst (genes.filter (fun x => decide (x ∈ df.colLabels))))] := rfl
  refine ⟨rfl, getOmicsColsFlat_cols omicsName df genes, ?_, ?_, ?_⟩
  · rw [hw]
    split
    · exact Nat.zero_le 1
    · exact Nat.le_refl 1
  · rw [hw]
    constructor
    · intro hemp g hg
      by_contra hc
      have hm := (missing_labels_char df genes g).mpr ⟨hg, hc⟩
      have hne := List.ne_nil_of_mem hm
      rw [if_neg hne] at hemp
      cases hemp
    · intro hall
      have hnil : indexDifference genes
          (dedupFirst (genes.filter (fun x => decide (x ∈ df.colLabels)))) = [] := by
        by_contra hc
        obtain ⟨g, hg⟩ := List.exists_mem_of_ne_nil _ hc
        obtain ⟨hg1, hg2⟩ := (missing_labels_char df genes g).mp hg
        exact hg2 (hall g hg1)
      rw [if_pos hnil]
  · rw [hw]
    intro w hwm g
    split at hwm
    · exact absurd hwm (List.not_mem_nil w)
    · have : w = indexDifference genes
          (dedupFirst (genes.filter (fun x => decide (x ∈ df.colLabels)))) := by
        rcases List.mem_singleton.mp hwm with h
        exact h
      rw [this]
      exact missing_labels_char df genes g

/-- Claim C7: metadata column lookup is strict: whenever at least one
requested column is absent from the table, `_get_metadata_cols` aborts
with the hard error the spec taxonomy calls `InvalidColumn` — in the
code an `InvalidParameterError` naming all the missing columns — issues
no warning, and returns no partial result. -/
theorem c7_metadata_strict_invalid_column (dfName : String) (df : FlatTable)
    (cols : List String) (h : ∃ c ∈ cols, ¬ c ∈ df.colLabels) :
    (getMetadataCols dfName df (some cols)).1 =
      .error (.invalidParameter (metadataMissingMsg dfName
        (indexDifference (dedupFirst cols) df.colLabels))) ∧
    (getMetadataCols dfName df (some cols)).2 = [] ∧
    (∀ c, c ∈ indexDifference (dedupFirst cols) df.colLabels ↔
      (c ∈ cols ∧ ¬ c ∈ df.colLabels)) := by
  obtain ⟨c0, hc0, hn0⟩ := h
  have hm : c0 ∈ indexDifference (dedupFirst cols) df.colLabels :=
    mem_indexDifference.mpr ⟨mem_dedupFirst.mpr hc0, hn0⟩
  have hne := List.ne_nil_of_mem hm
  have hcall : getMetadataCols dfName df (some cols) =
      (.error (.invalidParameter (metadataMissingMsg dfName
        (indexDifference (dedupFirst cols) df.colLabels))), []) := by
    unfold getMetadataCols
    dsimp only
    rw [if_neg hne]
  refine ⟨by rw [hcall], by rw [hcall], ?_⟩
  intro c
  rw [mem_indexDifference, mem_dedupFirst]

theorem c7_witness :
    (getMetadataCols "clinical" ⟨["S001"], [("Age", [some "5"])]⟩ (some ["Sex"])).1 =
      .error (.invalidParameter (metadataMissingMsg "clinical"
        (indexDifference (dedupFirst ["Sex"])
          (FlatTable.colLabels ⟨["S001"], [("Age", [some "5"])]⟩)))) ∧
    (getMetadataCols "clinical" ⟨["S001"], [("Age", [some "5"])]⟩ (some ["Sex"])).2 = [] ∧
    (∀ c, c ∈ indexDifference (dedupFirst ["Sex"])
        (FlatTable.colLabels ⟨["S001"], [("Age", [some "5"])]⟩) ↔
      (c ∈ ["Sex"] ∧ ¬ c ∈ FlatTable.colLabels ⟨["S001"], [("Age", [some "5"])]⟩)) :=
  c7_metadata_strict_invalid_column "clinical" ⟨["S001"], [("Age", [some "5"])]⟩
    ["Sex"] (by decide)

/-- Claim C8: in the wildtype imputer the fill-value shape is selected
per join call: a bare sentinel string when the aggregation ran with a
filter; effectively a singly-nested one-element list (a `[["..."]]`
literal, which the masked `.loc` assignment inserts with one nesting
level stripped) when unfiltered and every column of this call's joined
table — Sample_Status included — has object dtype; a doubly-nested list
otherwise.  Stated for a `NaN` cell of a `*_Mutation` column at a
Normal-status sample: the corresponding cell of the result holds exactly
the shape the rule selects for this call. -/
theorem c8_wildtype_fill_shape (other mutations : MTable) (filtered showLoc : Bool)
    (smap : List (String × Option String)) (c : MCol) (i : Nat) (r : String)
    (hc : c ∈ (addStatusCol (outerJoin other mutations) smap).cols)
    (hmut : isMutationCol c = true)
    (hr : (pandasUnion other.rows mutations.rows).get? i = some r)
    (hv : c.cells.get? i = some PVal.na)
    (hst : statusOf smap r = some "Normal") :
    ∃ c' ∈ (joinOtherToMutationsCore other mutations filtered showLoc smap).cols,
      c'.label = c.label ∧
      c'.cells.get? i = some (
        if filtered then PVal.s "Wildtype_Normal"
        else if (addStatusCol (outerJoin other mutations) smap).cols.all
            (fun x => x.dtype = Dtype.object) then
          PVal.list [PVal.s "Wildtype_Normal"]
        else PVal.list [PVal.list [PVal.s "Wildtype_Normal"]]) := by
  refine ⟨⟨c.label, c.dtype,
    fillMutationCol smap (pandasUnion other.rows mutations.rows)
      (wildtypeFills filtered (addStatusCol (outerJoin other mutations) smap)).1
      (wildtypeFills filtered (addStatusCol (outerJoin other mutations) smap)).2.1
      c.cells⟩,
    mutationCol_in_result other mutations filtered showLoc smap c hc hmut, rfl, ?_⟩
  rw [fillMutationCol_get? smap (pandasUnion other.rows mutations.rows) _ _ c.cells i r
    PVal.na hr hv]
  rw [if_pos ⟨hst, rfl⟩]
  rw [wildtypeFills_fst]

theorem c8_witness :
    ∃ c' ∈ (joinOtherToMutationsCore
        ⟨1, ["S001"], [⟨[some "prot_proteomics"], .object, [.s "1.1"]⟩]⟩
        ⟨1, [], [⟨[some "TP53_Mutation"], .object, []⟩]⟩
        false true [("S001", some "Normal")]).cols,
      c'.label = [some "TP53_Mutation"] ∧
      c'.cells.get? 0 = some (PVal.list [PVal.s "Wildtype_Normal"]) :=
  c8_wildtype_fill_shape
    ⟨1, ["S001"], [⟨[some "prot_proteomics"], .object, [.s "1.1"]⟩]⟩
    ⟨1, [], [⟨[some "TP53_Mutation"], .object, []⟩]⟩
    false true [("S001", some "Normal")]
    ⟨[some "TP53_Mutation"], .object, [.na]⟩ 0 "S001"
    (by exact List.Mem.tail _ (List.Mem.head _)) rfl rfl rfl rfl

/-- Claim C9: no core operation mutates a registry-owned table:
`_get_dataframe` leaves the name-to-table registry mapping identical,
returns a freshly allocated deep copy whose reference differs from every
registry reference, and mutating the returned copy (modelled as a heap
update at the returned reference) leaves every registry-dereferenced
table unchanged, so a later accessor call returns the same value.  All
core join/selection operations obtain tables solely through
`_get_dataframe`. -/
theorem c9_no_registry_mutation (reg : List (String × Nat)) (heap : List MTable)
    (name : String) (ref' : Nat) (heap' : List MTable) (reg' : List (String × Nat))
    (hwf : ∀ p ∈ reg, p.2 < heap.length)
    (hok : getDataframe reg heap name = .ok (ref', heap', reg')) :
    reg' = reg ∧
    (∀ p ∈ reg, p.2 ≠ ref') ∧
    (∀ p ∈ reg, heap'.get? p.2 = heap.get? p.2) ∧
    (∀ t : MTable, ∀ p ∈ reg, (heap'.set ref' t).get? p.2 = heap.get? p.2) ∧
    (∃ ref, lookupRef reg name = some ref ∧ heap'.get? ref' = heap.get? ref) :=
  getDataframe_copy_on_read reg heap name ref' heap' reg' hwf hok

theorem c9_witness :
    ([("clinical", 0)] : List (String × Nat)) = [("clinical", 0)] ∧
    (∀ p ∈ ([("clinical", 0)] : List (String × Nat)), p.2 ≠ 1) ∧
    (∀ p ∈ ([("clinical", 0)] : List (String × Nat)),
      ([(⟨1, ["S001"], []⟩ : MTable), ⟨1, ["S001"], []⟩].get? p.2 =
        [(⟨1, ["S001"], []⟩ : MTable)].get? p.2)) ∧
    (∀ t : MTable, ∀ p ∈ ([("clinical", 0)] : List (String × Nat)),
      (([(⟨1, ["S001"], []⟩ : MTable), ⟨1, ["S001"], []⟩].set 1 t).get? p.2 =
        [(⟨1, ["S001"], []⟩ : MTable)].get? p.2)) ∧
    (∃ ref, lookupRef [("clinical", 0)] "clinical" = some ref ∧
      [(⟨1, ["S001"], []⟩ : MTable), ⟨1, ["S001"], []⟩].get? 1 =
        [(⟨1, ["S001"], []⟩ : MTable)].get? ref) :=
  c9_no_registry_mutation [("clinical", 0)] [⟨1, ["S001"], []⟩] "clinical" 1
    [⟨1, ["S001"], []⟩, ⟨1, ["S001"], []⟩] [("clinical", 0)]
    (by decide) rfl

/-- Claim C10: every mutation-join result keeps the outer-join row index
and contains the additional Sample_Status column: its cells are, per
result row, the status looked up in the map taken from the clinical
table's Sample_Tumor_Normal column, with samples absent from the
clinical table receiving a missing value; with a multi-level column
index its label is Sample_Status at the Name level padded with missing
markers at the remaining levels. -/
theorem c10_sample_status_column (other mutations : MTable) (filtered showLoc : Bool)
    (clinical : FlatTable) (smap : List (String × Option String))
    (hsm : getSampleStatusMap clinical = some smap) :
    (joinOtherToMutationsCore other mutations filtered showLoc smap).rows =
      pandasUnion other.rows mutations.rows ∧
    ((⟨statusLabel (max other.nlevels mutations.nlevels), Dtype.object,
        (pandasUnion other.rows mutations.rows).map (fun r =>
          match statusOf smap r with
          | some s => PVal.s s
          | none => PVal.na)⟩ : MCol) ∈
      (joinOtherToMutationsCore other mutations filtered showLoc smap).cols) ∧
    (max other.nlevels mutations.nlevels > 1 →
      statusLabel (max other.nlevels mutations.nlevels) =
        (some "Sample_Status") ::
          List.replicate (max other.nlevels mutations.nlevels - 1) none) ∧
    (∀ r, ¬ r ∈ clinical.rows → statusOf smap r = none) := by
  refine ⟨joinOtherToMutationsCore_rows other mutations filtered showLoc smap,
    statusCol_in_result other mutations filtered showLoc smap, ?_, ?_⟩
  · intro h
    unfold statusLabel
    rw [if_pos h]
  · intro r hr
    exact statusOf_absent hsm hr

theorem c10_witness :
    (joinOtherToMutationsCore ⟨1, ["S001"], []⟩ ⟨1, [], []⟩ false true
        [("S001", some "Tumor")]).rows =
      pandasUnion ["S001"] [] ∧
    ((⟨statusLabel (max 1 1), Dtype.object,
        (pandasUnion ["S001"] []).map (fun r =>
          match statusOf [("S001", some "Tumor")] r with
          | some s => PVal.s s
          | none => PVal.na)⟩ : MCol) ∈
      (joinOtherToMutationsCore ⟨1, ["S001"], []⟩ ⟨1, [], []⟩ false true
        [("S001", some "Tumor")]).cols) ∧
    (max 1 1 > 1 →
      statusLabel (max 1 1) =
        (some "Sample_Status") :: List.replicate (max 1 1 - 1) none) ∧
    (∀ r, ¬ r ∈ (⟨["S001"], [("Sample_Tumor_Normal", [some "Tumor"])]⟩ : FlatTable).rows →
      statusOf [("S001", some "Tumor")] r = none) :=
  c10_sample_status_column ⟨1, ["S001"], []⟩ ⟨1, [], []⟩ false true
    ⟨["S001"], [("Sample_Tumor_Normal", [some "Tumor"])]⟩ [("S001", some "Tumor")] rfl
